import Mathlib

/-!
Verification of the Backup Transfer & Retention Engine of the backup_sync
add-on.  The definitions below are a shallow embedding of the Python code:

* `backup/backup_processor.py` — source validation, checksum policy,
  copy/verify/retry loop (`BackupProcessor`);
* `backup/cleanup_manager.py`  — retention planning and deletion
  (`CleanupManager`);
* `backup/backup_orchestrator.py` — bulk sync of existing backups
  (`BackupOrchestrator.sync_existing_backups`);
* `backup_sync/backup/backup_watcher.py` — event debouncing and the
  size-polling stability wait (`BackupWatcher`).

Filesystem state is made explicit: a file is its size together with an
abstract content digest (the checksum), directory listings are lists of
`(name, mtime, size)` records, and the outcome of each copy attempt is an
explicit parameter (the destination file state it leaves behind, `none`
when the copy raised).  Wall-clock effects (sleeps) are recorded as data
(the list of backoff waits) instead of being performed.  Timestamps seen
by the watcher are rationals, modelling the real-valued seconds of the
Python `datetime` arithmetic.
-/

namespace BackupSync

/-- A destination file as the verifier sees it: byte size plus an abstract
content digest standing for the md5 checksum of its bytes. -/
structure FileInfo where
  size : Nat
  checksum : Nat
  deriving Repr, DecidableEq

/-- The add-on configuration values consumed by the engine
(`config/loader.py`, all ints, validated nonnegative with
max_copies ≥ 1 and max_retries ≥ 1). -/
structure Config where
  wait_time : Nat
  max_retries : Nat
  retry_delay : Nat
  max_copies : Nat
  deriving Repr, DecidableEq

/-- The source backup file as observed by `_validate_source_file`:
existence, regular-file flag, size, extension, whether its size is stable
across the two reads of the validation, and its content digest. -/
structure SourceFile where
  exists_ : Bool
  isFile : Bool
  size : Nat
  suffix : String
  stable : Bool
  checksum : Nat
  deriving Repr, DecidableEq

/-- `BackupProcessor._validate_source_file`: the checks in source order;
returns (is_valid, message). -/
def validate_source_file (f : SourceFile) : Bool × String :=
  if !f.exists_ then (false, "File does not exist")
  else if !f.isFile then (false, "Not a regular file")
  else if f.size = 0 then (false, "File is empty")
  else if f.suffix ≠ ".tar" then (false, "Not a .tar file")
  else if !f.stable then (false, "File is still being written")
  else (true, "Valid")

/-- `BackupProcessor._should_calculate_checksum`: checksum only for files
below 10 GB. -/
def should_calculate_checksum (f : SourceFile) : Bool :=
  f.size < 10 * 1024 ^ 3

/-- Result of `BackupProcessor._verify_copy`, mirroring its Python tuple
(is_valid, error_message, checksum_match). -/
structure VerifyResult where
  ok : Bool
  error : Option String
  checksum_match : Bool
  deriving Repr, DecidableEq

/-- `BackupProcessor._verify_copy`: destination must exist, sizes must
match, and when a source checksum was computed the destination checksum
must equal it.  A copy attempt that raised is modelled as a missing
destination, which this check reports just like a file that was never
created. -/
def verify_copy (src : FileInfo) (dest : Option FileInfo)
    (source_checksum : Option Nat) : VerifyResult :=
  match dest with
  | none => ⟨false, some "Destination file not created", false⟩
  | some d =>
    if src.size ≠ d.size then
      ⟨false, some "Size mismatch", false⟩
    else
      match source_checksum with
      | some c =>
        if c ≠ d.checksum then ⟨false, some "Checksum mismatch", false⟩
        else ⟨true, none, true⟩
      | none => ⟨true, none, false⟩

/-- Everything `BackupProcessor._copy_with_retry` produces: the Python
4-tuple (success, error, attempts, checksum_match) plus the observable
side effects of the run — the destination file state after the attempt it
stopped at, and the backoff sleeps it performed, in order. -/
structure CopyOutcome where
  success : Bool
  error : Option String
  attempts : Nat
  checksum_match : Bool
  dest : Option FileInfo
  waits : List Nat
  deriving Repr, DecidableEq

/-- The attempt loop of `_copy_with_retry`.  `att k` is the destination
file state left behind by copy attempt `k` (`none` when `shutil.copy2`
raised; any previous destination was removed first).  `fuel` counts the
remaining iterations: the loop runs attempts `attempt, attempt+1, …` while
`attempt ≤ maxR`, so it is entered with `fuel = maxR` and `attempt = 1`. -/
def copyFrom (maxR delay : Nat) (src : FileInfo) (att : Nat → Option FileInfo)
    (sc : Option Nat) : Nat → Nat → Option String → CopyOutcome
  | 0, _, lastErr =>
    { success := false
      error := some (match lastErr with
        | some e => "Failed after " ++ toString maxR ++ " attempts: " ++ e
        | none => "Failed after " ++ toString maxR ++ " attempts")
      attempts := maxR
      checksum_match := false
      dest := att maxR
      waits := [] }
  | fuel + 1, attempt, _ =>
    let d := att attempt
    let v := verify_copy src d sc
    if v.ok then
      { success := true, error := none, attempts := attempt,
        checksum_match := v.checksum_match, dest := d, waits := [] }
    else
      let wait := if attempt < maxR then [delay * attempt] else []
      let rest := copyFrom maxR delay src att sc fuel (attempt + 1) v.error
      { rest with waits := wait ++ rest.waits }

/-- `BackupProcessor._copy_with_retry`: attempts 1 through
`max_retries`. -/
def copy_with_retry (maxR delay : Nat) (src : FileInfo)
    (att : Nat → Option FileInfo) (sc : Option Nat) : CopyOutcome :=
  copyFrom maxR delay src att sc maxR 1 none

/-- `BackupResult` of `backup_processor.py`, without the two `Path`
fields (constants of the call) and the wall-clock `duration`. -/
structure BackupResult where
  success : Bool
  source_size : Nat
  destination_size : Nat
  error : Option String
  attempts : Nat
  checksum_match : Bool
  deriving Repr, DecidableEq

/-- What one call of `BackupProcessor.process_backup` did: the returned
`BackupResult`, whether `_copy_with_retry` was ever entered, the final
destination file state, and the backoff sleeps performed. -/
structure ProcessOutcome where
  result : BackupResult
  copy_called : Bool
  final_dest : Option FileInfo
  waits : List Nat
  deriving Repr, DecidableEq

/-- `BackupProcessor.process_backup`.  The source file is static during
the call, so the re-validation after the `wait_time` pause returns the
same verdict as the first validation and is subsumed by it; the re-stats
of source and destination that fill the result return the sizes the loop
verified. -/
def process_backup (cfg : Config) (f : SourceFile)
    (att : Nat → Option FileInfo) : ProcessOutcome :=
  let val := validate_source_file f
  if !val.1 then
    { result :=
        { success := false, source_size := 0, destination_size := 0,
          error := some ("Source validation failed: " ++ val.2),
          attempts := 1, checksum_match := false }
      copy_called := false, final_dest := none, waits := [] }
  else
    let sc := if should_calculate_checksum f then some f.checksum else none
    let src : FileInfo := { size := f.size, checksum := f.checksum }
    let o := copy_with_retry cfg.max_retries cfg.retry_delay src att sc
    { result :=
        { success := o.success, source_size := f.size,
          destination_size :=
            if o.success then (o.dest.map FileInfo.size).getD 0 else 0,
          error := o.error, attempts := o.attempts,
          checksum_match := o.checksum_match }
      copy_called := true, final_dest := o.dest, waits := o.waits }

/-- One destination artifact as enumerated by
`CleanupManager._get_backup_files`: name, modification time (seconds,
exact rational standing for the Python float `st_mtime`), size. -/
structure BFile where
  name : String
  mtime : ℚ
  size : Nat
  deriving Repr, DecidableEq

/-- The sort key of `backup_files.sort(key=lambda x: x[1])`: modification
time only.  Python list sort is stable, as is `List.mergeSort`. -/
def mtime_le (a b : BFile) : Bool :=
  a.mtime ≤ b.mtime

/-- Stable sort by modification time, oldest first. -/
def sortByMtime (l : List BFile) : List BFile :=
  l.mergeSort mtime_le

/-- The dictionary returned by `CleanupManager.get_cleanup_plan`, with the
two file lists kept as records (the code stores per-file dicts derived
from the same records). -/
structure CleanupPlan where
  needed : Bool
  current_count : Nat
  max_allowed : Nat
  to_delete : List BFile
  to_keep : List BFile
  freed_space : Nat
  deriving Repr, DecidableEq

/-- `CleanupManager.get_cleanup_plan` over an enumeration `files` of the
destination directory. -/
def get_cleanup_plan (max_backups : Nat) (files : List BFile) : CleanupPlan :=
  if files.isEmpty then
    ⟨false, 0, max_backups, [], [], 0⟩
  else
    let sorted := sortByMtime files
    let current_count := files.length
    if max_backups < current_count then
      let to_delete_count := current_count - max_backups
      let files_to_delete := sorted.take to_delete_count
      let files_to_keep := sorted.drop to_delete_count
      ⟨true, current_count, max_backups, files_to_delete, files_to_keep,
        (files_to_delete.map BFile.size).sum⟩
    else
      ⟨false, current_count, max_backups, [], sorted, 0⟩

/-- Python slice `l[:k]` for a possibly negative bound `k`, as produced by
`backup_files[:to_delete_count]`: a negative bound counts from the end
(`l[0 : len(l) + k]`, clamped at 0). -/
def pySliceTo (l : List BFile) (k : Int) : List BFile :=
  if 0 ≤ k then l.take k.toNat
  else l.take (l.length - (-k).toNat)

/-- `CleanupManager.cleanup_old_backups` over an enumeration `files` of
the destination directory; every unlink succeeds in this model.  Returns
the deleted names (in deletion order) and the surviving files.  Note that
`to_delete_count = len(files) - max_backups` is a Python int and can be
negative, in which case the slice taken with it is nonempty whenever
`2 * len(files) > max_backups`. -/
def cleanup_old_backups (max_backups : Nat) (force : Bool)
    (files : List BFile) : List String × List BFile :=
  if files.isEmpty then ([], files)
  else if !force && files.length ≤ max_backups then ([], files)
  else
    let sorted := sortByMtime files
    let to_delete_count : Int := (files.length : Int) - (max_backups : Int)
    if to_delete_count ≤ 0 && !force then ([], files)
    else
      let files_to_delete := pySliceTo sorted to_delete_count
      (files_to_delete.map BFile.name, sorted.drop files_to_delete.length)

/-- One step of the loop of `BackupOrchestrator.sync_existing_backups`
over a source artifact `f`: skip it when an artifact of the same name is
already at the destination, otherwise run it through the processor
(`ok f` is the deterministic verdict of `process_backup` for `f`); on
success the destination gains a copy of `f` (`shutil.copy2` preserves the
modification time) and its name is appended to the synced list.  A failed
transfer whose last attempt raised leaves no destination file. -/
def sync_step (ok : BFile → Bool) (acc : List String × List BFile)
    (f : BFile) : List String × List BFile :=
  if acc.2.any (fun g => g.name == f.name) then acc
  else if ok f then (acc.1 ++ [f.name], acc.2 ++ [f])
  else acc

/-- The per-artifact loop of `sync_existing_backups`: fold `sync_step`
over the source enumeration, starting from the current destination set. -/
def sync_fold (ok : BFile → Bool) (source dest : List BFile) :
    List String × List BFile :=
  source.foldl (sync_step ok) ([], dest)

/-- `BackupOrchestrator.sync_existing_backups`: process every source
artifact, then run `cleanup_old_backups()` (no force) once if at least
one artifact was synced.  Returns the synced names and the resulting
destination set. -/
def sync_existing_backups (ok : BFile → Bool) (max_copies : Nat)
    (source dest : List BFile) : List String × List BFile :=
  let r := sync_fold ok source dest
  if r.1.isEmpty then r
  else (r.1, (cleanup_old_backups max_copies false r.2).2)

/-- A watchdog filesystem event as `BackupWatcher.on_created` reads it:
directory flag, file name, and the extension of the path. -/
structure FsEvent where
  is_directory : Bool
  name : String
  suffix : String
  deriving Repr, DecidableEq

/-- The `recently_processed` map of the watcher: filename to the time of
its last recorded event (seconds, exact rationals standing for the float
seconds of `datetime` arithmetic). -/
abbrev RecentMap := List (String × ℚ)

/-- Lookup in the debounce map. -/
def lookupTime (m : RecentMap) (name : String) : Option ℚ :=
  match m.find? (fun p => p.1 == name) with
  | some p => some p.2
  | none => none

/-- Overwrite (or add) the entry for `name`. -/
def setTime (m : RecentMap) (name : String) (t : ℚ) : RecentMap :=
  match m with
  | [] => [(name, t)]
  | p :: rest => if p.1 == name then (name, t) :: rest else p :: setTime rest name t

/-- `BackupWatcher._is_duplicate_event` at time `now`: the event is a
duplicate when a prior event for the same name was recorded strictly less
than `debounce` seconds ago. -/
def is_duplicate_event (debounce : ℚ) (now : ℚ) (m : RecentMap)
    (name : String) : Bool :=
  match lookupTime m name with
  | some last => now - last < debounce
  | none => false

/-- `BackupWatcher._cleanup_recent_cache`: drop entries recorded before
`now - 3600`. -/
def cleanup_recent_cache (now : ℚ) (m : RecentMap) : RecentMap :=
  m.filter (fun p => !(p.2 < now - 3600))

/-- `BackupWatcher._record_event`: write the entry, then purge stale
entries when the map has grown past `max_recent` entries. -/
def record_event (max_recent : Nat) (now : ℚ) (m : RecentMap)
    (name : String) : RecentMap :=
  let m' := setTime m name now
  if max_recent < m'.length then cleanup_recent_cache now m' else m'

/-- `BackupWatcher.on_created` at time `now`: discard directory events
and non-.tar paths, drop debounced duplicates, and otherwise record the
event and forward the signal (the code then hands the file to the
processor).  Returns (signal forwarded, new debounce map). -/
def on_created (debounce : ℚ) (max_recent : Nat) (now : ℚ) (m : RecentMap)
    (e : FsEvent) : Bool × RecentMap :=
  if e.is_directory then (false, m)
  else if e.suffix ≠ ".tar" then (false, m)
  else if is_duplicate_event debounce now m e.name then (false, m)
  else (true, record_event max_recent now m e.name)

/-- `on_created` with the watcher's constants: `debounce_seconds = 2`,
`max_recent_size = 100`. -/
def watcher_on_created (now : ℚ) (m : RecentMap) (e : FsEvent) :
    Bool × RecentMap :=
  on_created 2 100 now m e

/-- A qualifying creation event for `name`: not a directory, .tar path. -/
def mkEvent (name : String) : FsEvent :=
  ⟨false, name, ".tar"⟩

/-- The loop body of `BackupWatcher.wait_for_file_stable`, consuming the
remaining size samples.  `last` is the previously sampled size (the code
initialises it to the Python int -1, impossible as a file size) and
`stable` the count of consecutive samples that matched their predecessor;
the loop declares stability as soon as that count reaches 2. -/
def stableRun : List Nat → Int → Nat → Bool
  | [], _, _ => false
  | s :: rest, last, stable =>
    let stable' := if (s : Int) = last then stable + 1 else 0
    if 2 ≤ stable' then true else stableRun rest (s : Int) stable'

/-- `BackupWatcher.wait_for_file_stable` on the sequence of size samples
its `max_checks` iterations would read (one stat per iteration): True as
soon as the stability counter reaches 2, False once the samples are
exhausted. -/
def wait_for_file_stable (samples : List Nat) : Bool :=
  stableRun samples (-1) 0

/-- Three consecutive equal samples occur somewhere in the list. -/
def hasTriple (l : List Nat) : Prop :=
  ∃ i a t, l.drop i = a :: a :: a :: t

/-- Concrete inputs used by the witnesses: a valid 100-byte source. -/
def fW : SourceFile := ⟨true, true, 100, ".tar", true, 42⟩

/-- Copy attempts that always produce a faithful destination. -/
def attOkW : Nat → Option FileInfo := fun _ => some ⟨100, 42⟩

/-- Copy attempts where attempt 1 raises and attempt 2 succeeds. -/
def attRetryW : Nat → Option FileInfo :=
  fun k => if k = 1 then none else some ⟨100, 42⟩

/-- A configuration with three retries. -/
def cfgW : Config := ⟨0, 3, 7, 5⟩

/-- A source path that does not exist. -/
def fMissingW : SourceFile := ⟨false, true, 5, ".tar", true, 0⟩

/-- A destination enumeration of three artifacts, listed out of order. -/
def filesW : List BFile := [⟨"c.tar", 30, 3⟩, ⟨"a.tar", 10, 1⟩, ⟨"b.tar", 20, 2⟩]

/-- Two artifacts with equal modification times. -/
def tieA : BFile := ⟨"a.tar", 5, 1⟩

/-- Second artifact of the tie. -/
def tieB : BFile := ⟨"b.tar", 5, 2⟩

/-- A processor verdict that lets every artifact through. -/
def okAllW : BFile → Bool := fun _ => true

/-- A source directory holding two artifacts. -/
def srcTwoW : List BFile := [⟨"a.tar", 1, 10⟩, ⟨"b.tar", 2, 10⟩]

/-- A destination of two artifacts, fewer than the cap of 3 used below. -/
def cleanupBugFiles : List BFile := [⟨"old.tar", 1, 100⟩, ⟨"new.tar", 2, 200⟩]

theorem verify_copy_ok_spec (src : FileInfo) (d : Option FileInfo)
    (sc : Option Nat) (h : (verify_copy src d sc).ok = true) :
    ∃ g, d = some g ∧ g.size = src.size ∧
      ∀ c, sc = some c →
        g.checksum = c ∧ (verify_copy src d sc).checksum_match = true := by
  cases d with
  | none => simp [verify_copy] at h
  | some g =>
    refine ⟨g, rfl, ?_, ?_⟩
    · by_cases hs : src.size = g.size
      · exact hs.symm
      · simp [verify_copy, hs] at h
    · intro c hc
      subst hc
      by_cases hs : src.size = g.size
      · by_cases hcs : c = g.checksum
        · exact ⟨hcs.symm, by simp [verify_copy, hs, hcs]⟩
        · simp [verify_copy, hs, hcs] at h
      · simp [verify_copy, hs] at h

theorem copyFrom_failure_attempts (maxR delay : Nat) (src : FileInfo)
    (att : Nat → Option FileInfo) (sc : Option Nat) (fuel : Nat) :
    ∀ attempt err,
      (copyFrom maxR delay src att sc fuel attempt err).success = false →
      (copyFrom maxR delay src att sc fuel attempt err).attempts = maxR := by
  induction fuel with
  | zero => intro attempt err _; rfl
  | succ n ih =>
    intro attempt err h
    simp only [copyFrom] at h ⊢
    by_cases hv : (verify_copy src (att attempt) sc).ok = true
    · simp [hv] at h
    · simp only [hv, if_false, Bool.false_eq_true] at h ⊢
      exact ih _ _ h

theorem copyFrom_success_dest (maxR delay : Nat) (src : FileInfo)
    (att : Nat → Option FileInfo) (sc : Option Nat) (fuel : Nat) :
    ∀ attempt err,
      (copyFrom maxR delay src att sc fuel attempt err).success = true →
      (copyFrom maxR delay src att sc fuel attempt err).dest
          = att (copyFrom maxR delay src att sc fuel attempt err).attempts ∧
      (verify_copy src
          (att (copyFrom maxR delay src att sc fuel attempt err).attempts)
          sc).ok = true ∧
      (copyFrom maxR delay src att sc fuel attempt err).checksum_match
        = (verify_copy src
            (att (copyFrom maxR delay src att sc fuel attempt err).attempts)
            sc).checksum_match := by
  induction fuel with
  | zero => intro attempt err h; simp [copyFrom] at h
  | succ n ih =>
    intro attempt err h
    simp only [copyFrom] at h ⊢
    by_cases hv : (verify_copy src (att attempt) sc).ok = true
    · simp [hv]
    · simp only [hv, if_false, Bool.false_eq_true] at h ⊢
      exact ih _ _ h

theorem copyFrom_success_first (maxR delay : Nat) (src : FileInfo)
    (att : Nat → Option FileInfo) (sc : Option Nat) (fuel : Nat) :
    ∀ attempt err, attempt + fuel = maxR + 1 →
      (copyFrom maxR delay src att sc fuel attempt err).success = true →
      attempt ≤ (copyFrom maxR delay src att sc fuel attempt err).attempts ∧
      (copyFrom maxR delay src att sc fuel attempt err).attempts ≤ maxR ∧
      ∀ j, attempt ≤ j →
        j < (copyFrom maxR delay src att sc fuel attempt err).attempts →
        (verify_copy src (att j) sc).ok = false := by
  induction fuel with
  | zero => intro attempt err _ h; simp [copyFrom] at h
  | succ n ih =>
    intro attempt err hsum h
    simp only [copyFrom] at h ⊢
    by_cases hv : (verify_copy src (att attempt) sc).ok = true
    · simp only [hv, if_true]
      exact ⟨Nat.le_refl _, by omega, fun j hj1 hj2 => absurd hj2 (by omega)⟩
    · simp only [hv, if_false, Bool.false_eq_true] at h ⊢
      have hsum' : (attempt + 1) + n = maxR + 1 := by omega
      obtain ⟨h1, h2, h3⟩ := ih (attempt + 1) _ hsum' h
      refine ⟨by omega, h2, ?_⟩
      intro j hj1 hj2
      rcases Nat.eq_or_lt_of_le hj1 with hje | hlt
      · subst hje; exact Bool.eq_false_iff.mpr hv
      · exact h3 j hlt hj2

theorem copyFrom_waits (maxR delay : Nat) (src : FileInfo)
    (att : Nat → Option FileInfo) (sc : Option Nat) (fuel : Nat) :
    ∀ attempt err, attempt + fuel = maxR + 1 →
      (copyFrom maxR delay src att sc fuel attempt err).waits =
        (List.range' attempt
            ((copyFrom maxR delay src att sc fuel attempt err).attempts
              - attempt)).map (fun k => delay * k) := by
  induction fuel with
  | zero =>
    intro attempt err hsum
    have hz : maxR - attempt = 0 := by omega
    simp [copyFrom, hz]
  | succ n ih =>
    intro attempt err hsum
    simp only [copyFrom]
    by_cases hv : (verify_copy src (att attempt) sc).ok = true
    · simp [hv]
    · simp only [hv, if_false, Bool.false_eq_true]
      have hsum' : (attempt + 1) + n = maxR + 1 := by omega
      have hrec := ih (attempt + 1)
        (verify_copy src (att attempt) sc).error hsum'
      by_cases hs :
          (copyFrom maxR delay src att sc n (attempt + 1)
            (verify_copy src (att attempt) sc).error).success = true
      · obtain ⟨ha1, _, _⟩ :=
          copyFrom_success_first maxR delay src att sc n (attempt + 1)
            _ hsum' hs
        have hlt : attempt < maxR := by omega
        have hsplit :
            (copyFrom maxR delay src att sc n (attempt + 1)
                (verify_copy src (att attempt) sc).error).attempts - attempt
              = ((copyFrom maxR delay src att sc n (attempt + 1)
                  (verify_copy src (att attempt) sc).error).attempts
                  - (attempt + 1)) + 1 := by omega
        simp [hlt, hrec, hsplit, List.range'_succ]
      · have ha :=
          copyFrom_failure_attempts maxR delay src att sc n (attempt + 1)
            (verify_copy src (att attempt) sc).error
            (Bool.eq_false_iff.mpr hs)
        by_cases hm : attempt < maxR
        · have hsplit :
              (copyFrom maxR delay src att sc n (attempt + 1)
                  (verify_copy src (att attempt) sc).error).attempts - attempt
                = ((copyFrom maxR delay src att sc n (attempt + 1)
                    (verify_copy src (att attempt) sc).error).attempts
                    - (attempt + 1)) + 1 := by omega
          simp [hm, hrec, hsplit, List.range'_succ]
        · have hem : attempt = maxR := by omega
          have h1 :
              (copyFrom maxR delay src att sc n (attempt + 1)
                  (verify_copy src (att attempt) sc).error).attempts - attempt
                = 0 := by omega
          have h2 :
              (copyFrom maxR delay src att sc n (attempt + 1)
                  (verify_copy src (att attempt) sc).error).attempts
                - (attempt + 1) = 0 := by omega
          simp [hm, hrec, h1, h2]

/-- C1: for every transfer whose pre-validation passed, if the returned
BackupResult has success = true then destination_size equals source_size,
and if a source checksum was computed (source size below the 10 GB
ceiling) then the destination checksum equals the source checksum and
checksum_match is true. -/
theorem C1_success_implies_faithful_copy (cfg : Config) (f : SourceFile)
    (att : Nat → Option FileInfo)
    (hval : (validate_source_file f).1 = true)
    (hs : (process_backup cfg f att).result.success = true) :
    (process_backup cfg f att).result.destination_size
      = (process_backup cfg f att).result.source_size ∧
    (should_calculate_checksum f = true →
      (process_backup cfg f att).result.checksum_match = true ∧
      ∃ d, (process_backup cfg f att).final_dest = some d ∧
        d.checksum = f.checksum) := by
  simp only [process_backup, hval, Bool.not_true, Bool.false_eq_true,
    if_false] at hs ⊢
  obtain ⟨hdest, hok, hcm⟩ :=
    copyFrom_success_dest cfg.max_retries cfg.retry_delay
      ⟨f.size, f.checksum⟩ att
      (if should_calculate_checksum f then some f.checksum else none)
      cfg.max_retries 1 none hs
  obtain ⟨g, hg, hgsize, hgck⟩ := verify_copy_ok_spec _ _ _ hok
  constructor
  · simp only [copy_with_retry] at hs hdest ⊢
    simp [hs, hdest, hg, hgsize]
  · intro hcalc
    have hsc :
        (if should_calculate_checksum f then some f.checksum else none)
          = some f.checksum := by simp [hcalc]
    obtain ⟨hck, hmatch⟩ := hgck f.checksum hsc
    simp only [copy_with_retry] at hs hdest hcm ⊢
    refine ⟨?_, g, ?_, hck⟩
    · rw [hcm, hmatch]
    · rw [hdest, hg]

/-- C5: with pre-validation passed and max_retries ≥ 1, the attempt count
in a successful BackupResult is the ordinal (starting at 1) of the first
attempt whose verification passed — verification fails for every earlier
ordinal — and the attempt count in a failed BackupResult equals
max_retries. -/
theorem C5_attempt_count_first_success (cfg : Config) (f : SourceFile)
    (att : Nat → Option FileInfo)
    (hval : (validate_source_file f).1 = true)
    (hmax : 1 ≤ cfg.max_retries) :
    ((process_backup cfg f att).result.success = true →
      1 ≤ (process_backup cfg f att).result.attempts ∧
      (process_backup cfg f att).result.attempts ≤ cfg.max_retries ∧
      (verify_copy ⟨f.size, f.checksum⟩
          (att (process_backup cfg f att).result.attempts)
          (if should_calculate_checksum f then some f.checksum else none)).ok
        = true ∧
      ∀ j, 1 ≤ j → j < (process_backup cfg f att).result.attempts →
        (verify_copy ⟨f.size, f.checksum⟩ (att j)
          (if should_calculate_checksum f then some f.checksum
            else none)).ok = false) ∧
    ((process_backup cfg f att).result.success = false →
      (process_backup cfg f att).result.attempts = cfg.max_retries) := by
  simp only [process_backup, hval, Bool.not_true, Bool.false_eq_true,
    if_false, copy_with_retry]
  constructor
  · intro hs
    obtain ⟨h1, h2, h3⟩ :=
      copyFrom_success_first cfg.max_retries cfg.retry_delay
        ⟨f.size, f.checksum⟩ att
        (if should_calculate_checksum f then some f.checksum else none)
        cfg.max_retries 1 none (by omega) hs
    obtain ⟨_, hok, _⟩ :=
      copyFrom_success_dest cfg.max_retries cfg.retry_delay
        ⟨f.size, f.checksum⟩ att
        (if should_calculate_checksum f then some f.checksum else none)
        cfg.max_retries 1 none hs
    exact ⟨h1, h2, hok, h3⟩
  · intro hs
    exact copyFrom_failure_attempts cfg.max_retries cfg.retry_delay
      ⟨f.size, f.checksum⟩ att
      (if should_calculate_checksum f then some f.checksum else none)
      cfg.max_retries 1 none hs

/-- C6: a source path failing pre-validation for any of the listed
structural reasons (missing, not a regular file, empty, extension other
than .tar) makes process_backup return a failed BackupResult at once: the
retry loop is never entered, no copy attempt is made, no backoff wait
happens. -/
theorem C6_structural_failure_no_retry (cfg : Config) (f : SourceFile)
    (att : Nat → Option FileInfo)
    (h : f.exists_ = false ∨ f.isFile = false ∨ f.size = 0 ∨
      f.suffix ≠ ".tar") :
    (process_backup cfg f att).result.success = false ∧
    (process_backup cfg f att).copy_called = false ∧
    (process_backup cfg f att).waits = [] := by
  have hv : (validate_source_file f).1 = false := by
    unfold validate_source_file
    rcases h with h | h | h | h <;>
      cases he : f.exists_ <;> cases hf : f.isFile <;>
        by_cases hs : f.size = 0 <;> simp_all
  refine ⟨?_, ?_, ?_⟩ <;> simp [process_backup, hv]

/-- C7: the backoff sleeps of a run are exactly retry_delay * k for the
failed attempts k = 1, …, attempts - 1, in that order: after attempt k
fails the engine waits retry_delay * k seconds, and no wait follows the
successful attempt or the final exhausted attempt. -/
theorem C7_linear_backoff (cfg : Config) (f : SourceFile)
    (att : Nat → Option FileInfo)
    (hval : (validate_source_file f).1 = true)
    (hmax : 1 ≤ cfg.max_retries) :
    (process_backup cfg f att).waits =
      (List.range' 1 ((process_backup cfg f att).result.attempts - 1)).map
        (fun k => cfg.retry_delay * k) := by
  simp only [process_backup, hval, Bool.not_true, Bool.false_eq_true,
    if_false, copy_with_retry]
  exact copyFrom_waits cfg.max_retries cfg.retry_delay
    ⟨f.size, f.checksum⟩ att
    (if should_calculate_checksum f then some f.checksum else none)
    cfg.max_retries 1 none (by omega)

theorem C1_success_implies_faithful_copy_witness :
    (process_backup cfgW fW attOkW).result.destination_size
      = (process_backup cfgW fW attOkW).result.source_size ∧
    ((process_backup cfgW fW attOkW).result.checksum_match = true ∧
      ∃ d, (process_backup cfgW fW attOkW).final_dest = some d ∧
        d.checksum = fW.checksum) :=
  ⟨(C1_success_implies_faithful_copy cfgW fW attOkW (by decide)
      (by decide)).1,
   (C1_success_implies_faithful_copy cfgW fW attOkW (by decide)
      (by decide)).2 (by decide)⟩

theorem C5_attempt_count_first_success_witness :
    1 ≤ (process_backup cfgW fW attRetryW).result.attempts ∧
    (process_backup cfgW fW attRetryW).result.attempts
      ≤ cfgW.max_retries ∧
    (verify_copy ⟨fW.size, fW.checksum⟩
        (attRetryW (process_backup cfgW fW attRetryW).result.attempts)
        (if should_calculate_checksum fW then some fW.checksum
          else none)).ok = true ∧
    ∀ j, 1 ≤ j → j < (process_backup cfgW fW attRetryW).result.attempts →
      (verify_copy ⟨fW.size, fW.checksum⟩ (attRetryW j)
        (if should_calculate_checksum fW then some fW.checksum
          else none)).ok = false :=
  (C5_attempt_count_first_success cfgW fW attRetryW (by decide)
    (by decide)).1 (by decide)

theorem C6_structural_failure_no_retry_witness :
    (process_backup cfgW fMissingW attOkW).result.success = false ∧
    (process_backup cfgW fMissingW attOkW).copy_called = false ∧
    (process_backup cfgW fMissingW attOkW).waits = [] :=
  C6_structural_failure_no_retry cfgW fMissingW attOkW (by decide)

theorem C7_linear_backoff_witness :
    (process_backup cfgW fW attRetryW).waits =
      (List.range' 1
          ((process_backup cfgW fW attRetryW).result.attempts - 1)).map
        (fun k => cfgW.retry_delay * k) :=
  C7_linear_backoff cfgW fW attRetryW (by decide) (by decide)

theorem mtime_le_trans :
    ∀ a b c : BFile, mtime_le a b → mtime_le b c → mtime_le a c := by
  intro a b c hab hbc
  simp only [mtime_le, decide_eq_true_eq] at hab hbc ⊢
  exact le_trans hab hbc

theorem mtime_le_total : ∀ a b : BFile, mtime_le a b || mtime_le b a := by
  intro a b
  simp only [mtime_le, Bool.or_eq_true, decide_eq_true_eq]
  exact le_total _ _

theorem sortByMtime_perm (l : List BFile) : (sortByMtime l).Perm l :=
  List.mergeSort_perm l mtime_le

theorem sortByMtime_sorted (l : List BFile) :
    (sortByMtime l).Pairwise (fun a b => mtime_le a b = true) :=
  List.sorted_mergeSort mtime_le_trans mtime_le_total l

/-- C2: for every destination enumeration of N artifacts and cap M ≥ 1,
the cleanup plan keeps min(N, M) artifacts and deletes N - M (0 when
N ≤ M), the two lists together are a permutation of the full enumeration,
and every deleted artifact is at most as recent as every kept one — the
deleted ones are the N - M oldest by modification time. -/
theorem C2_plan_sizes_partition_oldest (M : Nat) (files : List BFile)
    (hM : 1 ≤ M) :
    (get_cleanup_plan M files).to_keep.length = min files.length M ∧
    (get_cleanup_plan M files).to_delete.length = files.length - M ∧
    ((get_cleanup_plan M files).to_delete
        ++ (get_cleanup_plan M files).to_keep).Perm files ∧
    ∀ a ∈ (get_cleanup_plan M files).to_delete,
      ∀ b ∈ (get_cleanup_plan M files).to_keep, a.mtime ≤ b.mtime := by
  by_cases hemp : files.isEmpty
  · have hnil : files = [] := by
      cases files with
      | nil => rfl
      | cons x t => simp [List.isEmpty] at hemp
    subst hnil
    simp [get_cleanup_plan]
  · have hlen := (sortByMtime_perm files).length_eq
    by_cases hn : M < files.length
    · simp only [get_cleanup_plan, hemp, Bool.false_eq_true, if_false,
        hn, if_true]
      refine ⟨?_, ?_, ?_, ?_⟩
      · simp only [List.length_drop, hlen]
        omega
      · simp only [List.length_take, hlen]
        omega
      · rw [List.take_append_drop]
        exact sortByMtime_perm files
      · intro a ha b hb
        have hpw := sortByMtime_sorted files
        rw [← List.take_append_drop (files.length - M) (sortByMtime files)]
          at hpw
        have := (List.pairwise_append.mp hpw).2.2 a ha b hb
        simpa [mtime_le, decide_eq_true_eq] using this
    · simp only [get_cleanup_plan, hemp, Bool.false_eq_true, if_false,
        hn, if_false]
      refine ⟨?_, ?_, ?_, ?_⟩
      · rw [hlen]
        omega
      · simp
        omega
      · simpa using sortByMtime_perm files
      · simp

theorem sorted_eq_of_perm_distinct :
    ∀ l₁ l₂ : List BFile, l₁.Perm l₂ →
      l₁.Pairwise (fun a b => mtime_le a b = true) →
      l₂.Pairwise (fun a b => mtime_le a b = true) →
      l₁.Pairwise (fun a b => a.mtime ≠ b.mtime) →
      l₁ = l₂ := by
  intro l₁
  induction l₁ with
  | nil =>
    intro l₂ hp _ _ _
    exact (hp.symm.eq_nil).symm
  | cons a t ih =>
    intro l₂ hp hs₁ hs₂ hd
    cases l₂ with
    | nil =>
      exact absurd hp.eq_nil (by simp)
    | cons b s =>
      have hb : b = a := by
        by_contra hne
        have hbmem : b ∈ a :: t := hp.symm.subset (List.mem_cons_self b s)
        have hamem : a ∈ b :: s := hp.subset (List.mem_cons_self a t)
        have hbt : b ∈ t := by
          rcases List.mem_cons.mp hbmem with hba | hbt
          · exact absurd hba hne
          · exact hbt
        have has : a ∈ s := by
          rcases List.mem_cons.mp hamem with hab | has
          · exact absurd hab.symm hne
          · exact has
        have h1 : a.mtime ≤ b.mtime := by
          have := (List.pairwise_cons.mp hs₁).1 b hbt
          simpa [mtime_le, decide_eq_true_eq] using this
        have h2 : b.mtime ≤ a.mtime := by
          have := (List.pairwise_cons.mp hs₂).1 a has
          simpa [mtime_le, decide_eq_true_eq] using this
        exact ((List.pairwise_cons.mp hd).1 b hbt) (le_antisymm h1 h2)
      subst hb
      have hts : t.Perm s := hp.cons_inv
      rw [ih s hts (List.pairwise_cons.mp hs₁).2 (List.pairwise_cons.mp hs₂).2
        (List.pairwise_cons.mp hd).2]

/-- C4, amended: the retention ordering is ascending by modification time
with no filename tiebreak (ties keep enumeration order, Python sort being
stable); consequently the delete/keep partition is independent of the
enumeration order whenever the modification times are pairwise distinct. -/
theorem C4_plan_enumeration_independent_distinct (M : Nat)
    (files₁ files₂ : List BFile) (hperm : files₁.Perm files₂)
    (hdist : files₁.Pairwise (fun a b => a.mtime ≠ b.mtime)) :
    (get_cleanup_plan M files₁).to_delete
      = (get_cleanup_plan M files₂).to_delete ∧
    (get_cleanup_plan M files₁).to_keep
      = (get_cleanup_plan M files₂).to_keep := by
  by_cases h1 : files₁ = []
  · subst h1
    have h2 : files₂ = [] := hperm.symm.eq_nil
    subst h2
    exact ⟨rfl, rfl⟩
  · have h2 : files₂ ≠ [] := fun hh => h1 (by rw [hh] at hperm; exact hperm.eq_nil)
    have hsort : sortByMtime files₁ = sortByMtime files₂ := by
      apply sorted_eq_of_perm_distinct
      · exact (sortByMtime_perm files₁).trans
          (hperm.trans (sortByMtime_perm files₂).symm)
      · exact sortByMtime_sorted files₁
      · exact sortByMtime_sorted files₂
      · exact ((sortByMtime_perm files₁).pairwise_iff
          (fun h => Ne.symm h)).mpr hdist
    have hlen : files₁.length = files₂.length := hperm.length_eq
    have he1 : files₁.isEmpty = false := by
      cases files₁ with
      | nil => exact absurd rfl h1
      | cons x t => rfl
    have he2 : files₂.isEmpty = false := by
      cases files₂ with
      | nil => exact absurd rfl h2
      | cons x t => rfl
    simp only [get_cleanup_plan, he1, he2, Bool.false_eq_true, if_false,
      hsort, hlen]
    exact ⟨trivial, trivial⟩

/-- C4, counterexample: with two artifacts of equal modification time the
two enumeration orders give different delete lists — the code has no
filename tiebreak, so the claimed determinism fails at ties. -/
theorem C4_counterexample :
    [tieA, tieB].Perm [tieB, tieA] ∧
    tieA.mtime = tieB.mtime ∧
    (get_cleanup_plan 1 [tieA, tieB]).to_delete
      ≠ (get_cleanup_plan 1 [tieB, tieA]).to_delete := by
  have ha : sortByMtime [tieA, tieB] = [tieA, tieB] :=
    List.mergeSort_of_sorted (by decide)
  have hb : sortByMtime [tieB, tieA] = [tieB, tieA] :=
    List.mergeSort_of_sorted (by decide)
  have key1 : (get_cleanup_plan 1 [tieA, tieB]).to_delete = [tieA] := by
    simp [get_cleanup_plan, ha]
  have key2 : (get_cleanup_plan 1 [tieB, tieA]).to_delete = [tieB] := by
    simp [get_cleanup_plan, hb]
  refine ⟨List.Perm.swap tieB tieA [], by decide, ?_⟩
  rw [key1, key2]
  decide

/-- C3: the code is wrong here.  With force = true and a destination
count of 2 under the cap of 3, to_delete_count is the negative Python int
-1 and the slice files[:-1] is the whole list but its last element, so
the oldest backup is deleted even though the delete-candidate set is
empty; the claim (and the plan, and needs_cleanup) say nothing may be
deleted when count ≤ max. -/
theorem C3_force_under_limit_deletes_oldest :
    (cleanup_old_backups 3 true cleanupBugFiles).1 = ["old.tar"] ∧
    cleanupBugFiles.length ≤ 3 ∧
    (get_cleanup_plan 3 cleanupBugFiles).to_delete = [] := by
  have hs : sortByMtime cleanupBugFiles = cleanupBugFiles :=
    List.mergeSort_of_sorted (by decide)
  refine ⟨?_, by decide, ?_⟩
  · simp only [cleanup_old_backups, hs]
    decide
  · simp [get_cleanup_plan, cleanupBugFiles]

theorem sync_fold_any_mono (ok : BFile → Bool) :
    ∀ (src : List BFile) (acc : List String × List BFile) (p : BFile → Bool),
      acc.2.any p = true →
      (src.foldl (sync_step ok) acc).2.any p = true := by
  intro src
  induction src with
  | nil => intro acc p h; exact h
  | cons x t ih =>
    intro acc p h
    simp only [List.foldl_cons]
    apply ih
    unfold sync_step
    by_cases h1 : acc.2.any (fun g => g.name == x.name) = true
    · simp [h1, h]
    · by_cases h2 : ok x = true
      · simp [h1, h2, List.any_append, h]
      · simp [h1, h2, h]

theorem sync_fold_complete (ok : BFile → Bool) :
    ∀ (src : List BFile) (acc : List String × List BFile) (f : BFile),
      f ∈ src → ok f = true →
      (src.foldl (sync_step ok) acc).2.any (fun g => g.name == f.name)
        = true := by
  intro src
  induction src with
  | nil => intro acc f hf _; simp at hf
  | cons x t ih =>
    intro acc f hf hok
    simp only [List.foldl_cons]
    rcases List.mem_cons.mp hf with hfx | hft
    · subst hfx
      apply sync_fold_any_mono
      unfold sync_step
      by_cases h1 : acc.2.any (fun g => g.name == f.name) = true
      · simpa [h1] using h1
      · simp [h1, hok, List.any_append]
    · exact ih _ f hft hok

theorem sync_fold_stable (ok : BFile → Bool) :
    ∀ (src : List BFile) (l : List String) (d : List BFile),
      (∀ f ∈ src, ok f = true →
        d.any (fun g => g.name == f.name) = true) →
      src.foldl (sync_step ok) (l, d) = (l, d) := by
  intro src
  induction src with
  | nil => intro l d _; rfl
  | cons x t ih =>
    intro l d h
    simp only [List.foldl_cons]
    have hstep : sync_step ok (l, d) x = (l, d) := by
      unfold sync_step
      by_cases h1 : d.any (fun g => g.name == x.name) = true
      · simp [h1]
      · have hx : ok x = false := by
          by_contra hc
          exact h1 (h x (List.mem_cons_self x t)
            (by revert hc; cases ok x <;> simp))
        simp [h1, hx]
    rw [hstep]
    exact ih l d (fun f hf => h f (List.mem_cons_of_mem x hf))

theorem sync_fold_synced_append (ok : BFile → Bool) :
    ∀ (src : List BFile) (acc : List String × List BFile),
      ∃ ext, (src.foldl (sync_step ok) acc).1 = acc.1 ++ ext := by
  intro src
  induction src with
  | nil => intro acc; exact ⟨[], by simp⟩
  | cons x t ih =>
    intro acc
    simp only [List.foldl_cons]
    obtain ⟨ext, hext⟩ := ih (sync_step ok acc x)
    by_cases h1 : acc.2.any (fun g => g.name == x.name) = true
    · have hstep : sync_step ok acc x = acc := by
        unfold sync_step; simp [h1]
      exact ⟨ext, by rw [hext, hstep]⟩
    · by_cases h2 : ok x = true
      · have hstep : sync_step ok acc x
            = (acc.1 ++ [x.name], acc.2 ++ [x]) := by
          unfold sync_step; simp [h1, h2]
        exact ⟨x.name :: ext, by rw [hext, hstep]; simp⟩
      · have hstep : sync_step ok acc x = acc := by
          unfold sync_step; simp [h1, h2]
        exact ⟨ext, by rw [hext, hstep]⟩

theorem sync_fold_nil_synced (ok : BFile → Bool) :
    ∀ (src : List BFile) (acc : List String × List BFile),
      (src.foldl (sync_step ok) acc).1 = acc.1 →
      (src.foldl (sync_step ok) acc).2 = acc.2 := by
  intro src
  induction src with
  | nil => intro acc _; rfl
  | cons x t ih =>
    intro acc h
    simp only [List.foldl_cons] at h ⊢
    by_cases h1 : acc.2.any (fun g => g.name == x.name) = true
    · have hstep : sync_step ok acc x = acc := by
        unfold sync_step; simp [h1]
      rw [hstep] at h ⊢
      exact ih acc h
    · by_cases h2 : ok x = true
      · exfalso
        have hstep : sync_step ok acc x = (acc.1 ++ [x.name], acc.2 ++ [x]) := by
          unfold sync_step; simp [h1, h2]
        rw [hstep] at h
        obtain ⟨ext, hext⟩ :=
          sync_fold_synced_append ok t (acc.1 ++ [x.name], acc.2 ++ [x])
        rw [hext] at h
        have := congrArg List.length h
        simp [List.length_append] at this
      · have hstep : sync_step ok acc x = acc := by
          unfold sync_step; simp [h1, h2]
        rw [hstep] at h ⊢
        exact ih acc h

theorem cleanup_noop (M : Nat) (files : List BFile)
    (h : files.length ≤ M) :
    cleanup_old_backups M false files = ([], files) := by
  unfold cleanup_old_backups
  by_cases he : files.isEmpty
  · simp [he]
  · simp [he, h]

/-- C9, amended: when the destination set produced by the first bulk sync
fits in the retention cap (so the retention pass after it deletes
nothing), a second sync_existing_backups with no new arrivals syncs
nothing and leaves the destination unchanged. -/
theorem C9_second_sync_empty_when_within_cap (ok : BFile → Bool) (M : Nat)
    (source dest : List BFile)
    (h : (sync_fold ok source dest).2.length ≤ M) :
    (sync_existing_backups ok M source
        (sync_existing_backups ok M source dest).2).1 = [] ∧
    (sync_existing_backups ok M source
        (sync_existing_backups ok M source dest).2).2
      = (sync_existing_backups ok M source dest).2 := by
  by_cases hemp : (sync_fold ok source dest).1.isEmpty
  · have hnil : (sync_fold ok source dest).1 = [] :=
      List.isEmpty_iff.mp hemp
    have hdest : (sync_fold ok source dest).2 = dest := by
      unfold sync_fold at hnil ⊢
      exact sync_fold_nil_synced ok source ([], dest) (by simpa using hnil)
    have hpair : sync_fold ok source dest = ([], dest) := by
      rw [Prod.ext_iff]
      exact ⟨hnil, hdest⟩
    have hfirst : sync_existing_backups ok M source dest = ([], dest) := by
      unfold sync_existing_backups
      rw [hpair]
      simp
    have hfirst2 : (sync_existing_backups ok M source dest).2 = dest := by
      rw [hfirst]
    rw [hfirst2, hfirst]
    exact ⟨rfl, rfl⟩
  · have hclean : cleanup_old_backups M false (sync_fold ok source dest).2
        = ([], (sync_fold ok source dest).2) :=
      cleanup_noop M _ h
    have hfirst : sync_existing_backups ok M source dest
        = ((sync_fold ok source dest).1, (sync_fold ok source dest).2) := by
      unfold sync_existing_backups
      simp [hemp, hclean]
    have hfirst2 : (sync_existing_backups ok M source dest).2
        = (sync_fold ok source dest).2 := by
      rw [hfirst]
    have hall : ∀ f ∈ source, ok f = true →
        (sync_fold ok source dest).2.any (fun g => g.name == f.name)
          = true :=
      fun f hf hok => sync_fold_complete ok source ([], dest) f hf hok
    have hsecondfold :
        sync_fold ok source (sync_fold ok source dest).2
          = ([], (sync_fold ok source dest).2) := by
      unfold sync_fold
      exact sync_fold_stable ok source [] _ hall
    have hsecond :
        sync_existing_backups ok M source (sync_fold ok source dest).2
          = ([], (sync_fold ok source dest).2) := by
      unfold sync_existing_backups
      rw [hsecondfold]
      simp
    rw [hfirst2, hsecond]
    exact ⟨rfl, rfl⟩

/-- C9, counterexample: two source artifacts, empty destination, cap 1.
The first call syncs both and its retention pass deletes the older one
from the destination; the second call, with no new arrivals, re-syncs the
deleted artifact — the claimed empty synced-list fails. -/
theorem C9_counterexample :
    (sync_existing_backups okAllW 1 srcTwoW
        (sync_existing_backups okAllW 1 srcTwoW []).2).1 ≠ [] := by
  have hr : sync_fold okAllW srcTwoW []
      = (["a.tar", "b.tar"], [⟨"a.tar", 1, 10⟩, ⟨"b.tar", 2, 10⟩]) := by
    decide
  have hs : sortByMtime [⟨"a.tar", 1, 10⟩, ⟨"b.tar", 2, 10⟩]
      = [(⟨"a.tar", 1, 10⟩ : BFile), ⟨"b.tar", 2, 10⟩] :=
    List.mergeSort_of_sorted (by decide)
  have hclean : cleanup_old_backups 1 false
      [⟨"a.tar", 1, 10⟩, ⟨"b.tar", 2, 10⟩]
      = (["a.tar"], [⟨"b.tar", 2, 10⟩]) := by
    simp only [cleanup_old_backups, hs]
    decide
  have hfirst : (sync_existing_backups okAllW 1 srcTwoW []).2
      = [⟨"b.tar", 2, 10⟩] := by
    unfold sync_existing_backups
    rw [hr]
    simp only []
    rw [show (["a.tar", "b.tar"] : List String).isEmpty = false from rfl]
    simp only [if_false, Bool.false_eq_true]
    rw [hclean]
  rw [hfirst]
  decide

theorem C9_second_sync_empty_when_within_cap_witness :
    (sync_existing_backups okAllW 5 srcTwoW
        (sync_existing_backups okAllW 5 srcTwoW []).2).1 = [] ∧
    (sync_existing_backups okAllW 5 srcTwoW
        (sync_existing_backups okAllW 5 srcTwoW []).2).2
      = (sync_existing_backups okAllW 5 srcTwoW []).2 :=
  C9_second_sync_empty_when_within_cap okAllW 5 srcTwoW [] (by decide)

/-- C8: starting from an empty debounce map, a first qualifying event for
a filename is forwarded; a second qualifying event for the same filename
within the 2-second debounce window is dropped, and one arriving more
than 2 seconds later is forwarded as well — one signal in the first case,
two in the second. -/
theorem C8_debounce_window (name : String) (t₁ t₂ : ℚ) :
    (watcher_on_created t₁ [] (mkEvent name)).1 = true ∧
    (t₂ - t₁ < 2 →
      (watcher_on_created t₂ (watcher_on_created t₁ [] (mkEvent name)).2
        (mkEvent name)).1 = false) ∧
    (2 < t₂ - t₁ →
      (watcher_on_created t₂ (watcher_on_created t₁ [] (mkEvent name)).2
        (mkEvent name)).1 = true) := by
  have hstate : (watcher_on_created t₁ [] (mkEvent name)).2
      = [(name, t₁)] := by
    simp [watcher_on_created, on_created, mkEvent, is_duplicate_event,
      lookupTime, record_event, setTime]
  refine ⟨?_, ?_, ?_⟩
  · simp [watcher_on_created, on_created, mkEvent, is_duplicate_event,
      lookupTime]
  · intro h
    rw [hstate]
    simp [watcher_on_created, on_created, mkEvent, is_duplicate_event,
      lookupTime, h]
  · intro h
    rw [hstate]
    have hnot : ¬(t₂ - t₁ < 2) := by linarith
    simp [watcher_on_created, on_created, mkEvent, is_duplicate_event,
      lookupTime, record_event, setTime, hnot]

theorem C8_debounce_window_witness :
    (watcher_on_created (0 : ℚ) [] (mkEvent "x.tar")).1 = true ∧
    (watcher_on_created 1
        (watcher_on_created (0 : ℚ) [] (mkEvent "x.tar")).2
        (mkEvent "x.tar")).1 = false ∧
    (watcher_on_created 9
        (watcher_on_created (0 : ℚ) [] (mkEvent "x.tar")).2
        (mkEvent "x.tar")).1 = true :=
  ⟨(C8_debounce_window "x.tar" 0 1).1,
   (C8_debounce_window "x.tar" 0 1).2.1 (by norm_num),
   (C8_debounce_window "x.tar" 0 9).2.2 (by norm_num)⟩

theorem hasTriple_nil : ¬ hasTriple ([] : List Nat) := by
  rintro ⟨i, a, t, h⟩
  simp at h

theorem hasTriple_cons (x : Nat) (l : List Nat) :
    hasTriple (x :: l) ↔ (∃ t, l = x :: x :: t) ∨ hasTriple l := by
  constructor
  · rintro ⟨i, a, t, h⟩
    cases i with
    | zero =>
      simp only [List.drop_zero] at h
      left
      injection h with h1 h2
      subst h1
      exact ⟨t, h2⟩
    | succ n =>
      right
      exact ⟨n, a, t, by simpa using h⟩
  · rintro (⟨t, ht⟩ | ⟨i, a, t, h⟩)
    · exact ⟨0, x, t, by simp [ht]⟩
    · exact ⟨i + 1, a, t, by simpa using h⟩

theorem stableRun_true_iff :
    ∀ (l : List Nat) (last : Int) (stable : Nat), stable ≤ 1 →
      (stableRun l last stable = true ↔
        hasTriple l ∨
        ∃ a t, l = a :: t ∧ (a : Int) = last ∧
          (stable = 1 ∨ ∃ b t2, t = b :: t2 ∧ b = a)) := by
  intro l
  induction l with
  | nil =>
    intro last stable _
    simp [stableRun, hasTriple_nil]
  | cons s rest ih =>
    intro last stable hst
    by_cases hx : (s : Int) = last
    · rcases (by omega : stable = 1 ∨ stable = 0) with h1 | h0
      · subst h1
        have hrun : stableRun (s :: rest) last 1 = true := by
          simp [stableRun, hx]
        rw [hrun]
        constructor
        · intro _
          exact Or.inr ⟨s, rest, rfl, hx, Or.inl rfl⟩
        · intro _
          rfl
      · subst h0
        have hrun : stableRun (s :: rest) last 0
            = stableRun rest (s : Int) 1 := by
          simp [stableRun, hx]
        rw [hrun, ih (s : Int) 1 (by omega), hasTriple_cons]
        constructor
        · rintro (htr | ⟨a, t, hat, hcast, _⟩)
          · exact Or.inl (Or.inr htr)
          · have ha : a = s := by exact_mod_cast hcast
            subst ha
            exact Or.inr ⟨a, rest, rfl, hx, Or.inr ⟨a, t, hat, rfl⟩⟩
        · rintro ((⟨t, htr⟩ | htr) | ⟨a, t, hat, hcast2, hinner⟩)
          · exact Or.inr ⟨s, s :: t, htr, rfl, Or.inl rfl⟩
          · exact Or.inl htr
          · injection hat with h1 h2
            rcases hinner with h01 | ⟨b, t2, hb, hba⟩
            · exact absurd h01 (by omega)
            · refine Or.inr ⟨b, t2, ?_, ?_, Or.inl rfl⟩
              · rw [h2, hb]
              · rw [hba, ← h1]
    · have hrun : stableRun (s :: rest) last stable
          = stableRun rest (s : Int) 0 := by
        simp [stableRun, hx]
      rw [hrun, ih (s : Int) 0 (by omega), hasTriple_cons]
      constructor
      · rintro (htr | ⟨a, t, hat, hcast, hinner⟩)
        · exact Or.inl (Or.inr htr)
        · have ha : a = s := by exact_mod_cast hcast
          subst ha
          rcases hinner with h01 | ⟨b, t2, hb, hba⟩
          · exact absurd h01 (by omega)
          · subst hba
            exact Or.inl (Or.inl ⟨t2, by rw [hat, hb]⟩)
      · rintro ((⟨t, htr⟩ | htr) | ⟨a, t, hat, hcast2, hinner⟩)
        · exact Or.inr ⟨s, s :: t, htr, rfl, Or.inr ⟨s, t, rfl, rfl⟩⟩
        · exact Or.inl htr
        · injection hat with h1 h2
          subst h1
          exact absurd hcast2 hx

/-- C10, amended: wait_for_file_stable declares the file stable exactly
when three consecutive samples show the same size — the stability counter
counts samples equal to their predecessor and must reach 2 — and returns
False once the fixed number of samples is exhausted without that. -/
theorem C10_stable_iff_three_consecutive_equal (samples : List Nat) :
    wait_for_file_stable samples = true ↔ hasTriple samples := by
  unfold wait_for_file_stable
  rw [stableRun_true_iff samples (-1) 0 (by omega)]
  have hno : ∀ a : Nat, ¬((a : Int) = -1) := by intro a; omega
  constructor
  · rintro (h | ⟨a, t, _, hcast, _⟩)
    · exact h
    · exact absurd hcast (hno a)
  · intro h
    exact Or.inl h

/-- C10, counterexample: two consecutive samples of the same size do not
make the code declare stability — on the sample sequence [7, 7] it
returns False (the counter reaches only 1), while the claim says the file
is declared stable as soon as the same size is observed on two
consecutive samples. -/
theorem C10_counterexample :
    wait_for_file_stable [7, 7] = false := by decide

theorem C2_plan_sizes_partition_oldest_witness :
    (get_cleanup_plan 2 filesW).to_keep.length = min filesW.length 2 ∧
    (get_cleanup_plan 2 filesW).to_delete.length = filesW.length - 2 ∧
    ((get_cleanup_plan 2 filesW).to_delete
        ++ (get_cleanup_plan 2 filesW).to_keep).Perm filesW ∧
    ∀ a ∈ (get_cleanup_plan 2 filesW).to_delete,
      ∀ b ∈ (get_cleanup_plan 2 filesW).to_keep, a.mtime ≤ b.mtime :=
  C2_plan_sizes_partition_oldest 2 filesW (by decide)

theorem C4_plan_enumeration_independent_distinct_witness :
    (get_cleanup_plan 1 srcTwoW).to_delete
      = (get_cleanup_plan 1
          [⟨"b.tar", 2, 10⟩, ⟨"a.tar", 1, 10⟩]).to_delete ∧
    (get_cleanup_plan 1 srcTwoW).to_keep
      = (get_cleanup_plan 1
          [⟨"b.tar", 2, 10⟩, ⟨"a.tar", 1, 10⟩]).to_keep :=
  C4_plan_enumeration_independent_distinct 1 srcTwoW
    [⟨"b.tar", 2, 10⟩, ⟨"a.tar", 1, 10⟩]
    (by unfold srcTwoW; exact List.Perm.swap _ _ _)
    (by decide)

end BackupSync
